import Mathlib

set_option maxRecDepth 8192

namespace MiniGit

/-! Shallow embedding of the MiniGit version-control engine (MiniGitSystem.hpp).
    C++ unordered maps are modelled as association lists so that the
    implementation-defined iteration order the code relies on is explicit;
    lookups return the first matching entry.  The filesystem under .minigit
    is part of the state: blob files, commit-record files, branch-ref files,
    the HEAD file, and the working directory, each a map from name to
    content. -/

/-- First-match association-list lookup, the model of unordered_map find/count/at. -/
def lookupS {α : Type} : List (String × α) → String → Option α
  | [], _ => none
  | e :: t, k => if e.1 = k then some e.2 else lookupS t k

/-- Model of unordered_map operator[] assignment: replace the entry in place
    when the key is present, otherwise append. -/
def insertA {α : Type} : List (String × α) → String → α → List (String × α)
  | [], k, v => [(k, v)]
  | e :: t, k, v => if e.1 = k then (k, v) :: t else e :: insertA t k v

/-- Model of unordered_map erase by key. -/
def eraseA {α : Type} : List (String × α) → String → List (String × α)
  | [], _ => []
  | e :: t, k => if e.1 = k then eraseA t k else e :: eraseA t k

/-- The Commit record of MiniGitSystem.hpp: digest, message, timestamp,
    ordered parent digests, and the tree (filename to blob digest) in its
    iteration order. -/
structure Commit where
  hash : String
  message : String
  timestamp : String
  parentHashes : List String
  fileBlobs : List (String × String)
deriving DecidableEq

def emptyCommit : Commit := ⟨"", "", "", [], []⟩

/-- The full state of one MiniGitSystem process plus the on-disk repository:
    in-memory commit cache, branch map, staging area and HEAD fields, and the
    persistent layout (objects, commit records, branch-ref files, HEAD file,
    working directory, and the directories created by init). -/
structure GitState where
  commits : List (String × Commit)
  branches : List (String × String)
  stagingArea : List (String × String)
  headBranch : String
  headCommitHash : String
  minigitExists : Bool
  objectsDir : Bool
  commitsDir : Bool
  refsHeadsDir : Bool
  objects : List (String × String)
  commitFiles : List (String × Commit)
  refFiles : List (String × String)
  headFile : String
  workingDir : List (String × String)
deriving DecidableEq

/-- Models the content digest hashFileContent: the source applies the standard
    library string hasher and renders it with to_string; only determinism is
    required (spec 4.11), so a concrete 64-bit polynomial hash stands in for
    the unspecified library algorithm. -/
def hashFileContent (content : String) : String :=
  toString (content.data.foldl (fun h c => (h * 131 + c.toNat) % (2 ^ 64)) 5381)

/-- The canonical concatenation commit hashes: message, then timestamp, then
    each parent digest in order, then each tree entry as path followed by
    blob digest, in tree iteration order (commit, lines 597-599). -/
def commitSerial (message timestamp : String) (parents : List String)
    (tree : List (String × String)) : String :=
  tree.foldl (fun acc fb => acc ++ fb.1 ++ fb.2)
    (parents.foldl (fun acc p => acc ++ p) (message ++ timestamp))

/-- The commit digest: hashFileContent of the canonical concatenation. -/
def commitDigest (message timestamp : String) (parents : List String)
    (tree : List (String × String)) : String :=
  hashFileContent (commitSerial message timestamp parents tree)

/-- The visibility filter applied by every working-directory scan
    (filename is not .minigit and does not start with a dot). -/
def isVisible (f : String) : Bool :=
  f ≠ ".minigit" && (match f.data.head? with | some c => c ≠ '.' | none => true)

/-- loadBlob: read a blob file, returning the empty string when the file
    cannot be opened (lines 82-92). -/
def loadBlob (s : GitState) (h : String) : String :=
  (lookupS s.objects h).getD ""

/-- loadCommitFromFile: parse a commit record, setting the hash field from the
    file name, or return a record with empty hash when the file is missing
    (lines 117-155). -/
def loadCommitFromFile (s : GitState) (h : String) : Commit :=
  match lookupS s.commitFiles h with
  | some c => { c with hash := h }
  | none => emptyCommit

/-- The lazy cache fill used by commit, checkout and status: load the commit
    record into the in-memory map when the digest is nonempty and not cached. -/
def ensureLoaded (s : GitState) (h : String) : GitState :=
  if h = "" then s
  else if (lookupS s.commits h).isSome then s
  else { s with commits := insertA s.commits h (loadCommitFromFile s h) }

/-- The head commit pointer handed to the classifiers: none when HEAD has no
    commit, otherwise the cache entry for the head digest. -/
def headCommitOf (s : GitState) : Option Commit :=
  if s.headCommitHash = "" then none else lookupS s.commits s.headCommitHash

/-- One filesystem mutation performed under .minigit, in program order. -/
inductive DiskWrite where
  | refWrite (branch digest : String)
  | headWrite (content : String)
  | commitRecord (digest : String)
deriving DecidableEq

/-- saveHeadAndBranchRefs (lines 157-183) with its write trace: write the
    current branch ref (only when attached and pointing at a commit), then
    rewrite HEAD with the symbolic form when attached, else the bare digest. -/
def saveHeadAndBranchRefsEv (s : GitState) : GitState × List DiskWrite :=
  let p :=
    if s.headBranch ≠ "" ∧ s.headCommitHash ≠ "" then
      ({ s with refFiles := insertA s.refFiles s.headBranch s.headCommitHash },
       [DiskWrite.refWrite s.headBranch s.headCommitHash])
    else (s, [])
  let content := if s.headBranch ≠ "" then "ref: refs/heads/" ++ s.headBranch
                 else s.headCommitHash
  ({ p.1 with headFile := content }, p.2 ++ [DiskWrite.headWrite content])

def saveHeadAndBranchRefs (s : GitState) : GitState :=
  (saveHeadAndBranchRefsEv s).1

inductive InitResult where
  | ok
  | alreadyExists
deriving DecidableEq

/-- init (lines 493-512): refuse when .minigit exists; otherwise create the
    directory tree, set HEAD to master with no commit, bind master to the
    empty digest in memory, and call saveHeadAndBranchRefs. -/
def initOp (s : GitState) : GitState × InitResult :=
  if s.minigitExists then (s, InitResult.alreadyExists)
  else
    let s1 := { s with
      minigitExists := true, objectsDir := true, commitsDir := true,
      refsHeadsDir := true, headBranch := "master", headCommitHash := "",
      branches := insertA s.branches "master" "" }
    (saveHeadAndBranchRefs s1, InitResult.ok)

inductive BranchResult where
  | notARepository
  | noCommits
  | branchExists
  | created
deriving DecidableEq

/-- branch (lines 670-686): guard on repository, nonempty HEAD commit and a
    fresh name, then bind the name to the current commit and call
    saveHeadAndBranchRefs. -/
def branchOp (s : GitState) (name : String) : GitState × BranchResult :=
  if !s.minigitExists then (s, BranchResult.notARepository)
  else if s.headCommitHash = "" then (s, BranchResult.noCommits)
  else if (lookupS s.branches name).isSome then (s, BranchResult.branchExists)
  else
    (saveHeadAndBranchRefs { s with branches := insertA s.branches name s.headCommitHash },
     BranchResult.created)

/-- The staged-change classification record (lines 349-353). -/
structure StagedChanges where
  added : List String
  modified : List String
  deleted : List String
deriving DecidableEq

/-- The unstaged-change classification record (lines 293-297). -/
structure WorkingDirChanges where
  modified : List String
  deleted : List String
  untracked : List String
deriving DecidableEq

/-- getStagedChanges (lines 355-388): walk the staging area classifying each
    entry as added or modified against the head tree, then walk the head tree
    marking as deleted every path absent from both the staging area and the
    filesystem (the fs exists test is not restricted to visible files). -/
def getStagedChanges (s : GitState) (headCommit : Option Commit) : StagedChanges :=
  let commitFiles := match headCommit with | some c => c.fileBlobs | none => []
  let step1 := s.stagingArea.foldl (fun acc fb =>
    match lookupS commitFiles fb.1 with
    | some bh =>
        if bh ≠ fb.2 then { acc with modified := acc.modified ++ [fb.1] } else acc
    | none => { acc with added := acc.added ++ [fb.1] }) ⟨[], [], []⟩
  commitFiles.foldl (fun acc fb =>
    if (lookupS s.stagingArea fb.1).isNone && (lookupS s.workingDir fb.1).isNone
    then { acc with deleted := acc.deleted ++ [fb.1] } else acc) step1

/-- The visible regular files at the working root, the set every directory
    scan enumerates. -/
def visibleWd (s : GitState) : List (String × String) :=
  s.workingDir.filter (fun f => isVisible f.1)

/-- getUnstagedChanges (lines 299-345): classify each visible working file
    against the staging area first (the index shadows HEAD), then against the
    head tree, else untracked; then mark as deleted every head-tree path in
    neither the visible working set nor the staging area. -/
def getUnstagedChanges (s : GitState) (headCommit : Option Commit) : WorkingDirChanges :=
  let commitFiles := match headCommit with | some c => c.fileBlobs | none => []
  let step1 := (visibleWd s).foldl (fun acc f =>
    let currentHash := hashFileContent f.2
    match lookupS s.stagingArea f.1 with
    | some sh =>
        if sh ≠ currentHash then
          { acc with modified :=
              acc.modified ++ [f.1 ++ " (not staged - staged version differs from WD)"] }
        else acc
    | none =>
        match lookupS commitFiles f.1 with
        | some ch =>
            if ch ≠ currentHash then { acc with modified := acc.modified ++ [f.1] } else acc
        | none => { acc with untracked := acc.untracked ++ [f.1] }) ⟨[], [], []⟩
  commitFiles.foldl (fun acc fb =>
    if (lookupS (visibleWd s) fb.1).isNone && (lookupS s.stagingArea fb.1).isNone
    then { acc with deleted := acc.deleted ++ [fb.1] } else acc) step1

def stagedEmpty (c : StagedChanges) : Bool :=
  c.added.isEmpty && c.modified.isEmpty && c.deleted.isEmpty

def wdChangesEmpty (c : WorkingDirChanges) : Bool :=
  c.modified.isEmpty && c.deleted.isEmpty && c.untracked.isEmpty

/-- The staged classification commit computes, on the state after the lazy
    head-commit load (commit, lines 554-564). -/
def commitStaged (s0 : GitState) : StagedChanges :=
  let s := ensureLoaded s0 s0.headCommitHash
  getStagedChanges s (headCommitOf s)

/-- The parent list of the commit under construction: the head digest when
    HEAD points at a commit, else empty (commit, lines 578-579). -/
def commitParentsOf (s0 : GitState) : List String :=
  if s0.headCommitHash = "" then [] else [s0.headCommitHash]

/-- The base snapshot the new commit starts from: the head tree, or empty when
    HEAD has no commit (commit, lines 578-582). -/
def headTreeOf (s0 : GitState) : List (String × String) :=
  match headCommitOf (ensureLoaded s0 s0.headCommitHash) with
  | some c => c.fileBlobs
  | none => []

/-- The tree of the commit under construction: head tree overlaid with every
    staging entry, then the staged-deleted keys erased (commit, lines
    584-594). -/
def commitTreePre (s0 : GitState) : List (String × String) :=
  let t1 := s0.stagingArea.foldl (fun t fb => insertA t fb.1 fb.2) (headTreeOf s0)
  (commitStaged s0).deleted.foldl (fun t f => eraseA t f) t1

inductive CommitResult where
  | notARepository
  | noEffectiveChanges
  | committed (digest : String)
deriving DecidableEq

/-- commit (lines 548-614) with its write trace: after the lazy head load, a
    fully empty staged classification clears the index and stops; otherwise
    the new commit is built, hashed, cached, HEAD and the attached branch are
    advanced, saveHeadAndBranchRefs runs (ref write then HEAD write), the
    commit record is written last, and the index is cleared. -/
def commitOpEv (s0 : GitState) (message timestamp : String) :
    (GitState × CommitResult) × List DiskWrite :=
  if s0.minigitExists then
    let s := ensureLoaded s0 s0.headCommitHash
    if stagedEmpty (commitStaged s0) then
      (({ s with stagingArea := [] }, CommitResult.noEffectiveChanges), [])
    else
      let parents := commitParentsOf s0
      let tree := commitTreePre s0
      let h := commitDigest message timestamp parents tree
      let newCommit : Commit := ⟨h, message, timestamp, parents, tree⟩
      let s1 := { s with commits := insertA s.commits h newCommit, headCommitHash := h }
      let s2 := if s1.headBranch ≠ "" then
                  { s1 with branches := insertA s1.branches s1.headBranch h }
                else s1
      let p := saveHeadAndBranchRefsEv s2
      let s4 := { p.1 with commitFiles := insertA p.1.commitFiles h newCommit,
                           stagingArea := [] }
      ((s4, CommitResult.committed h), p.2 ++ [DiskWrite.commitRecord h])
  else ((s0, CommitResult.notARepository), [])

def commitOp (s0 : GitState) (message timestamp : String) : GitState × CommitResult :=
  (commitOpEv s0 message timestamp).1

def commitEvents (s0 : GitState) (message timestamp : String) : List DiskWrite :=
  (commitOpEv s0 message timestamp).2

/-- Whether one string starts with another, the model of
    first.rfind(target, 0) == 0. -/
def strStartsWith (s t : String) : Bool :=
  List.isPrefixOf t.data s.data

/-- The short-hash condition of the checkout resolution loop (line 726): the
    stored digest starts with the target and the target has length at least
    four. -/
def resolvePred (target : String) (e : String × Commit) : Bool :=
  strStartsWith e.1 target && decide (4 ≤ target.length)

/-- The commit resolution of checkout (lines 720-731): an exact cache key, or
    else the first cache entry in iteration order whose digest the target
    prefixes with length at least four; the empty string when nothing
    matches. -/
def resolveCommit (s : GitState) (target : String) : String :=
  if (lookupS s.commits target).isSome then target
  else
    match s.commits.find? (resolvePred target) with
    | some e => e.1
    | none => ""

/-- The skip condition of populateWorkingDirectory (line 258): content read as
    empty and the object file absent. -/
def blobTreatedMissing (s : GitState) (h : String) : Bool :=
  loadBlob s h = "" && (lookupS s.objects h).isNone

/-- populateWorkingDirectory (lines 245-288): write every tree entry whose
    blob is readable (a missing blob is skipped per file), and delete every
    visible working file that is not a key of the tree. -/
def populateWorkingDirectory (s : GitState) (c : Commit) : GitState :=
  let kept := s.workingDir.filter
    (fun f => !(isVisible f.1) || (lookupS c.fileBlobs f.1).isSome)
  let wd := c.fileBlobs.foldl (fun wd fb =>
      if blobTreatedMissing s fb.2 then wd
      else insertA wd fb.1 (loadBlob s fb.2)) kept
  { s with workingDir := wd }

inductive CheckoutResult where
  | notARepository
  | workingDirDirty
  | alreadyOnBranch
  | switchedEmptyBranch
  | unknownTarget
  | corruptTarget
  | alreadyAtTarget
  | checkedOut
deriving DecidableEq

/-- The dirty test of checkout (lines 703-707): any staged or unstaged change,
    untracked files included. -/
def checkoutDirty (s : GitState) : Bool :=
  !(stagedEmpty (getStagedChanges s (headCommitOf s)) &&
    wdChangesEmpty (getUnstagedChanges s (headCommitOf s)))

/-- The final switch of checkout (lines 776-791): the already-at-target early
    return, then set HEAD, save refs, materialize the snapshot, clear the
    index. -/
def checkoutSwitch (s : GitState) (tch newBr : String) (c : Commit) :
    GitState × CheckoutResult :=
  if s.headCommitHash = tch ∧
      ((newBr = "" ∧ s.headBranch = "") ∨ newBr = s.headBranch) then
    (s, CheckoutResult.alreadyAtTarget)
  else
    let s2 := saveHeadAndBranchRefs { s with headBranch := newBr, headCommitHash := tch }
    ({ populateWorkingDirectory s2 c with stagingArea := [] },
     CheckoutResult.checkedOut)

/-- The shared tail of checkout once the target digest and the new branch
    binding are fixed (lines 736-792): the empty-branch switch, the
    unknown-target failure, then the target-commit load (the corrupt check
    applies only when the commit record is freshly loaded, lines 767-773) and
    the switch. -/
def checkoutGo (s : GitState) (tch newBr : String) : GitState × CheckoutResult :=
  if tch = "" ∧ newBr ≠ "" then
    if s.headBranch = newBr then (s, CheckoutResult.alreadyOnBranch)
    else
      let s1 := { s with
        workingDir := s.workingDir.filter (fun f => !(isVisible f.1)),
        headBranch := newBr, headCommitHash := "" }
      ({ saveHeadAndBranchRefs s1 with stagingArea := [] },
       CheckoutResult.switchedEmptyBranch)
  else if tch = "" then (s, CheckoutResult.unknownTarget)
  else
    match lookupS s.commits tch with
    | some c => checkoutSwitch s tch newBr c
    | none =>
      let c := loadCommitFromFile s tch
      let s1 := { s with commits := insertA s.commits tch c }
      if c.hash = "" then (s1, CheckoutResult.corruptTarget)
      else checkoutSwitch s1 tch newBr c

/-- Target resolution of checkout (lines 713-734): a known branch name wins,
    otherwise the commit resolution with detached mode. -/
def checkoutResolve (s : GitState) (target : String) : GitState × CheckoutResult :=
  match lookupS s.branches target with
  | some bh => checkoutGo s bh target
  | none => checkoutGo s (resolveCommit s target) ""

/-- checkout after the lazy head load: refuse when dirty, else resolve and
    switch. -/
def checkoutLoaded (s : GitState) (target : String) : GitState × CheckoutResult :=
  if checkoutDirty s then (s, CheckoutResult.workingDirDirty)
  else checkoutResolve s target

/-- checkout (lines 689-792). -/
def checkoutOp (s0 : GitState) (target : String) : GitState × CheckoutResult :=
  if s0.minigitExists then checkoutLoaded (ensureLoaded s0 s0.headCommitHash) target
  else (s0, CheckoutResult.notARepository)

/-! Association-list lemmas. -/

lemma lookupS_insertA_self {α : Type} (l : List (String × α)) (k : String) (v : α) :
    lookupS (insertA l k v) k = some v := by
  induction l with
  | nil => simp [insertA, lookupS]
  | cons e t ih =>
    unfold insertA
    by_cases he : e.1 = k
    · simp [he, lookupS]
    · simp [he, lookupS, ih]

lemma lookupS_insertA_ne {α : Type} (l : List (String × α)) (k k2 : String) (v : α)
    (h : k ≠ k2) : lookupS (insertA l k v) k2 = lookupS l k2 := by
  induction l with
  | nil => simp [insertA, lookupS, h]
  | cons e t ih =>
    unfold insertA
    by_cases he : e.1 = k
    · simp [he, lookupS, h]
    · simp [he, lookupS, ih]

lemma insertA_id {α : Type} (l : List (String × α)) (k : String) (v : α)
    (h : lookupS l k = some v) : insertA l k v = l := by
  induction l with
  | nil => simp [lookupS] at h
  | cons e t ih =>
    simp only [lookupS] at h
    simp only [insertA]
    by_cases he : e.1 = k
    · rw [if_pos he] at h
      rw [if_pos he]
      injection h with h2
      rw [← he, ← h2]
    · rw [if_neg he] at h
      rw [if_neg he, ih h]

lemma lookupS_eq_none_of_not_mem {α : Type} (l : List (String × α)) (k : String)
    (h : k ∉ l.map Prod.fst) : lookupS l k = none := by
  induction l with
  | nil => rfl
  | cons e t ih =>
    rw [List.map_cons, List.mem_cons, not_or] at h
    simp only [lookupS]
    rw [if_neg (fun hek => h.1 hek.symm), ih h.2]

lemma lookupS_eraseA_self {α : Type} (l : List (String × α)) (k : String) :
    lookupS (eraseA l k) k = none := by
  induction l with
  | nil => rfl
  | cons e t ih =>
    simp only [eraseA]
    by_cases he : e.1 = k
    · rw [if_pos he]; exact ih
    · rw [if_neg he]
      simp only [lookupS]
      rw [if_neg he]
      exact ih

lemma lookupS_eraseA_ne {α : Type} (l : List (String × α)) (k k2 : String)
    (h : k ≠ k2) : lookupS (eraseA l k) k2 = lookupS l k2 := by
  induction l with
  | nil => rfl
  | cons e t ih =>
    simp only [eraseA]
    by_cases he : e.1 = k
    · rw [if_pos he]
      simp only [lookupS]
      rw [if_neg (fun h2 : e.1 = k2 => h (he ▸ h2)), ih]
    · rw [if_neg he]
      simp only [lookupS]
      by_cases he2 : e.1 = k2
      · rw [if_pos he2, if_pos he2]
      · rw [if_neg he2, if_neg he2, ih]

lemma lookupS_foldl_insertA (l : List (String × String)) (k : String)
    (hnd : (l.map Prod.fst).Nodup) (base : List (String × String)) :
    lookupS (l.foldl (fun t fb => insertA t fb.1 fb.2) base) k =
      Option.or (lookupS l k) (lookupS base k) := by
  induction l generalizing base with
  | nil => simp [lookupS]
  | cons e t ih =>
    rw [List.map_cons, List.nodup_cons] at hnd
    rw [List.foldl_cons, ih hnd.2]
    simp only [lookupS]
    by_cases he : e.1 = k
    · have ht : lookupS t k = none :=
        lookupS_eq_none_of_not_mem t k (by rw [← he]; exact hnd.1)
      rw [ht, if_pos he, ← he, lookupS_insertA_self]
      rfl
    · rw [if_neg he, lookupS_insertA_ne _ _ _ _ he]

lemma lookupS_foldl_eraseA (ds : List String) (t : List (String × String)) (k : String) :
    lookupS (ds.foldl (fun t f => eraseA t f) t) k =
      if k ∈ ds then none else lookupS t k := by
  induction ds generalizing t with
  | nil => simp
  | cons d dt ih =>
    rw [List.foldl_cons, ih]
    by_cases hk : k ∈ dt
    · rw [if_pos hk, if_pos (List.mem_cons_of_mem d hk)]
    · rw [if_neg hk]
      by_cases hd : k = d
      · rw [if_pos (by rw [hd]; exact List.mem_cons_self d dt), hd, lookupS_eraseA_self]
      · rw [if_neg (by rw [List.mem_cons, not_or]; exact ⟨hd, hk⟩),
           lookupS_eraseA_ne _ _ _ (fun h => hd h.symm)]

/-! Frame lemmas for the lazy cache load and the ref-saving helper. -/

lemma ensureLoaded_headBranch (s : GitState) (h : String) :
    (ensureLoaded s h).headBranch = s.headBranch := by
  unfold ensureLoaded; split
  · rfl
  · split <;> rfl

lemma ensureLoaded_headCommitHash (s : GitState) (h : String) :
    (ensureLoaded s h).headCommitHash = s.headCommitHash := by
  unfold ensureLoaded; split
  · rfl
  · split <;> rfl

lemma ensureLoaded_branches (s : GitState) (h : String) :
    (ensureLoaded s h).branches = s.branches := by
  unfold ensureLoaded; split
  · rfl
  · split <;> rfl

lemma ensureLoaded_refFiles (s : GitState) (h : String) :
    (ensureLoaded s h).refFiles = s.refFiles := by
  unfold ensureLoaded; split
  · rfl
  · split <;> rfl

lemma ensureLoaded_headFile (s : GitState) (h : String) :
    (ensureLoaded s h).headFile = s.headFile := by
  unfold ensureLoaded; split
  · rfl
  · split <;> rfl

lemma ensureLoaded_workingDir (s : GitState) (h : String) :
    (ensureLoaded s h).workingDir = s.workingDir := by
  unfold ensureLoaded; split
  · rfl
  · split <;> rfl

lemma ensureLoaded_stagingArea (s : GitState) (h : String) :
    (ensureLoaded s h).stagingArea = s.stagingArea := by
  unfold ensureLoaded; split
  · rfl
  · split <;> rfl

lemma ensureLoaded_objects (s : GitState) (h : String) :
    (ensureLoaded s h).objects = s.objects := by
  unfold ensureLoaded; split
  · rfl
  · split <;> rfl

lemma ensureLoaded_commitFiles (s : GitState) (h : String) :
    (ensureLoaded s h).commitFiles = s.commitFiles := by
  unfold ensureLoaded; split
  · rfl
  · split <;> rfl

lemma saveEv_commits (s : GitState) :
    (saveHeadAndBranchRefsEv s).1.commits = s.commits := by
  unfold saveHeadAndBranchRefsEv; split <;> rfl

/-! Concrete repository states used to evaluate the operations. -/

/-- A fresh, uninitialized working directory. -/
def fresh0 : GitState :=
  ⟨[], [], [], "master", "", false, false, false, false, [], [], [], "", []⟩

/-- A commit with digest h1111 for the branch scenario. -/
def demoCommit : Commit := ⟨"h1111", "first", "t0", [], []⟩

/-- A consistent repository on branch master with one commit h1111. -/
def branchState : GitState :=
  ⟨[("h1111", demoCommit)], [("master", "h1111")], [], "master", "h1111",
   true, true, true, true, [], [("h1111", demoCommit)], [("master", "h1111")],
   "ref: refs/heads/master", []⟩

/-- A repository on empty branch master with one file staged for a root
    commit. -/
def rootCommitState : GitState :=
  ⟨[], [("master", "")], [("a.txt", "beef")], "master", "",
   true, true, true, true, [("beef", "A")], [], [],
   "ref: refs/heads/master", [("a.txt", "A")]⟩

/-- The digest of the root commit made from rootCommitState with message msg
    and timestamp ts. -/
def rootDigest : String := commitDigest "msg" "ts" [] [("a.txt", "beef")]

/-- C1: the claim fails on the code, which contradicts its own comment
    (line 684, persist the new branch reference): branch("feature") on a
    repository whose HEAD commit is h1111 succeeds and adds the in-memory
    binding, but saveHeadAndBranchRefs writes only the current branch ref, so
    no refs/heads/feature file is created on disk and a process reload would
    not list feature. -/
theorem branch_ref_not_persisted :
    (branchOp branchState "feature").2 = BranchResult.created ∧
    lookupS (branchOp branchState "feature").1.branches "feature" = some "h1111" ∧
    lookupS (branchOp branchState "feature").1.refFiles "feature" = none ∧
    lookupS branchState.refFiles "feature" = none := by decide

/-- C2: the claim fails on the code: for a successful commit on branch master
    the write trace is branch-ref write, then HEAD write, then commit-record
    write, so the commit record is persisted last and between the first and
    third writes the on-disk ref names a digest whose record does not exist
    yet; the claim (and spec sections 2, 4.6 and 5) require the record before
    the ref. -/
theorem commit_record_written_after_refs :
    commitEvents rootCommitState "msg" "ts" =
      [DiskWrite.refWrite "master" rootDigest,
       DiskWrite.headWrite "ref: refs/heads/master",
       DiskWrite.commitRecord rootDigest] ∧
    (commitOp rootCommitState "msg" "ts").2 = CommitResult.committed rootDigest := by
  decide

/-- C8: the claim fails on the code, which contradicts its own comment
    (line 507, create the HEAD file and master ref): init in a fresh directory
    creates the directories and writes HEAD with the symbolic master line, but
    saveHeadAndBranchRefs skips the branch-ref write because the head commit
    digest is empty, so no refs/heads/master file exists afterwards. -/
theorem init_master_ref_missing :
    (initOp fresh0).2 = InitResult.ok ∧
    (initOp fresh0).1.minigitExists = true ∧
    (initOp fresh0).1.objectsDir = true ∧
    (initOp fresh0).1.commitsDir = true ∧
    (initOp fresh0).1.refsHeadsDir = true ∧
    (initOp fresh0).1.headFile = "ref: refs/heads/master" ∧
    lookupS (initOp fresh0).1.branches "master" = some "" ∧
    lookupS (initOp fresh0).1.refFiles "master" = none := by decide

/-- An object store holding one empty blob under digest e1 and nothing under
    digest m1. -/
def emptyBlobStore : GitState :=
  ⟨[], [], [], "master", "", true, true, true, true, [("e1", "")], [], [], "", []⟩

/-- C5 counterexample: the claim fails on the code: loadBlob returns the empty
    string both for the unknown digest m1 and for the stored empty blob e1, so
    the read result alone is not a distinguishable MissingObject failure. -/
theorem loadBlob_missing_equals_empty :
    loadBlob emptyBlobStore "m1" = loadBlob emptyBlobStore "e1" ∧
    lookupS emptyBlobStore.objects "m1" = none ∧
    lookupS emptyBlobStore.objects "e1" = some "" := by decide

/-- C5 amended: the test populateWorkingDirectory actually applies, empty
    content and object file absent, holds exactly for digests missing from the
    object store; a stored empty blob is therefore never treated as missing at
    materialization, even though loadBlob alone cannot tell the two apart. -/
theorem blob_missing_check_characterizes (s : GitState) (h : String) :
    blobTreatedMissing s h = true ↔ lookupS s.objects h = none := by
  unfold blobTreatedMissing loadBlob
  cases hl : lookupS s.objects h with
  | none => simp
  | some v => simp

lemma checkoutSwitch_ne_dirty (s : GitState) (tch newBr : String) (c : Commit) :
    (checkoutSwitch s tch newBr c).2 ≠ CheckoutResult.workingDirDirty := by
  unfold checkoutSwitch
  dsimp only
  repeat' split
  all_goals exact fun hc => CheckoutResult.noConfusion hc

lemma checkoutGo_ne_dirty (s : GitState) (tch newBr : String) :
    (checkoutGo s tch newBr).2 ≠ CheckoutResult.workingDirDirty := by
  unfold checkoutGo
  dsimp only
  repeat' split
  all_goals first
    | apply checkoutSwitch_ne_dirty
    | exact fun hc => CheckoutResult.noConfusion hc

lemma checkoutResolve_ne_dirty (s : GitState) (target : String) :
    (checkoutResolve s target).2 ≠ CheckoutResult.workingDirDirty := by
  unfold checkoutResolve
  split <;> apply checkoutGo_ne_dirty

/-- C3: when checkout refuses with WorkingDirDirty because of staged,
    unstaged or untracked changes, the HEAD branch and commit fields, the
    branch map, the on-disk branch-ref files and HEAD file, every
    working-directory file and the staging area are exactly as before the
    call (only the in-memory commit cache may have lazily loaded the head
    commit record, a read). -/
theorem checkout_dirty_preserves_state (s s2 : GitState) (target : String)
    (h : checkoutOp s target = (s2, CheckoutResult.workingDirDirty)) :
    s2.headBranch = s.headBranch ∧ s2.headCommitHash = s.headCommitHash ∧
    s2.branches = s.branches ∧ s2.refFiles = s.refFiles ∧
    s2.headFile = s.headFile ∧ s2.workingDir = s.workingDir ∧
    s2.stagingArea = s.stagingArea := by
  unfold checkoutOp at h
  split at h
  · unfold checkoutLoaded at h
    split at h
    · rw [Prod.mk.injEq] at h
      obtain ⟨hEq, -⟩ := h
      subst hEq
      exact ⟨ensureLoaded_headBranch s _, ensureLoaded_headCommitHash s _,
        ensureLoaded_branches s _, ensureLoaded_refFiles s _,
        ensureLoaded_headFile s _, ensureLoaded_workingDir s _,
        ensureLoaded_stagingArea s _⟩
    · exact absurd (congrArg Prod.snd h) (checkoutResolve_ne_dirty _ _)
  · exact absurd (congrArg Prod.snd h) (fun hc => CheckoutResult.noConfusion hc)

/-- A repository on empty branch master whose working directory holds one
    untracked file, so checkout must refuse. -/
def dirtyState : GitState :=
  ⟨[], [("master", "")], [], "master", "", true, true, true, true, [], [], [],
   "ref: refs/heads/master", [("a.txt", "x")]⟩

/-- C3 witness: on the concrete dirty repository dirtyState, checkout master
    returns WorkingDirDirty and the theorem yields the frame equalities. -/
theorem checkout_dirty_preserves_state_witness :
    (checkoutOp dirtyState "master").1.headBranch = dirtyState.headBranch ∧
    (checkoutOp dirtyState "master").1.headCommitHash = dirtyState.headCommitHash ∧
    (checkoutOp dirtyState "master").1.branches = dirtyState.branches ∧
    (checkoutOp dirtyState "master").1.refFiles = dirtyState.refFiles ∧
    (checkoutOp dirtyState "master").1.headFile = dirtyState.headFile ∧
    (checkoutOp dirtyState "master").1.workingDir = dirtyState.workingDir ∧
    (checkoutOp dirtyState "master").1.stagingArea = dirtyState.stagingArea :=
  checkout_dirty_preserves_state dirtyState (checkoutOp dirtyState "master").1
    "master" (by decide)

/-- C6: when the staged-change classification yields zero added, zero
    modified and zero deleted entries, commit creates no commit, writes
    nothing to disk (object store, commit store, ref files and HEAD file are
    untouched), leaves the HEAD fields and all branch bindings unchanged,
    clears the index, and reports NoEffectiveChanges. -/
theorem commit_noop_on_empty_staging (s : GitState) (m ts : String)
    (hrepo : s.minigitExists = true)
    (hstaged : commitStaged s = ⟨[], [], []⟩) :
    (commitOp s m ts).2 = CommitResult.noEffectiveChanges ∧
    (commitOp s m ts).1.stagingArea = [] ∧
    (commitOp s m ts).1.headBranch = s.headBranch ∧
    (commitOp s m ts).1.headCommitHash = s.headCommitHash ∧
    (commitOp s m ts).1.branches = s.branches ∧
    (commitOp s m ts).1.objects = s.objects ∧
    (commitOp s m ts).1.commitFiles = s.commitFiles ∧
    (commitOp s m ts).1.refFiles = s.refFiles ∧
    (commitOp s m ts).1.headFile = s.headFile ∧
    (commitOp s m ts).1.workingDir = s.workingDir := by
  have h1 : commitOp s m ts =
      ({ ensureLoaded s s.headCommitHash with stagingArea := [] },
       CommitResult.noEffectiveChanges) := by
    unfold commitOp commitOpEv
    rw [hstaged]
    simp [hrepo, stagedEmpty]
  rw [h1]
  exact ⟨rfl, rfl, ensureLoaded_headBranch s _, ensureLoaded_headCommitHash s _,
    ensureLoaded_branches s _, ensureLoaded_objects s _,
    ensureLoaded_commitFiles s _, ensureLoaded_refFiles s _,
    ensureLoaded_headFile s _, ensureLoaded_workingDir s _⟩

/-- A repository on empty branch master with a clean staging area. -/
def noopState : GitState :=
  ⟨[], [("master", "")], [], "master", "", true, true, true, true, [], [], [],
   "ref: refs/heads/master", []⟩

/-- C6 witness: on the concrete clean repository noopState, commit reports
    NoEffectiveChanges and changes none of the listed components. -/
theorem commit_noop_on_empty_staging_witness :
    (commitOp noopState "m" "t").2 = CommitResult.noEffectiveChanges ∧
    (commitOp noopState "m" "t").1.stagingArea = [] ∧
    (commitOp noopState "m" "t").1.headBranch = noopState.headBranch ∧
    (commitOp noopState "m" "t").1.headCommitHash = noopState.headCommitHash ∧
    (commitOp noopState "m" "t").1.branches = noopState.branches ∧
    (commitOp noopState "m" "t").1.objects = noopState.objects ∧
    (commitOp noopState "m" "t").1.commitFiles = noopState.commitFiles ∧
    (commitOp noopState "m" "t").1.refFiles = noopState.refFiles ∧
    (commitOp noopState "m" "t").1.headFile = noopState.headFile ∧
    (commitOp noopState "m" "t").1.workingDir = noopState.workingDir :=
  commit_noop_on_empty_staging noopState "m" "t" (by decide) (by decide)

/-! Frame lemmas for saveHeadAndBranchRefs. -/

lemma save_headBranch (s : GitState) :
    (saveHeadAndBranchRefs s).headBranch = s.headBranch := by
  unfold saveHeadAndBranchRefs saveHeadAndBranchRefsEv
  dsimp only
  split <;> rfl

lemma save_headCommitHash (s : GitState) :
    (saveHeadAndBranchRefs s).headCommitHash = s.headCommitHash := by
  unfold saveHeadAndBranchRefs saveHeadAndBranchRefsEv
  dsimp only
  split <;> rfl

lemma save_branches (s : GitState) :
    (saveHeadAndBranchRefs s).branches = s.branches := by
  unfold saveHeadAndBranchRefs saveHeadAndBranchRefsEv
  dsimp only
  split <;> rfl

lemma save_stagingArea (s : GitState) :
    (saveHeadAndBranchRefs s).stagingArea = s.stagingArea := by
  unfold saveHeadAndBranchRefs saveHeadAndBranchRefsEv
  dsimp only
  split <;> rfl

lemma save_workingDir (s : GitState) :
    (saveHeadAndBranchRefs s).workingDir = s.workingDir := by
  unfold saveHeadAndBranchRefs saveHeadAndBranchRefsEv
  dsimp only
  split <;> rfl

lemma save_objects (s : GitState) :
    (saveHeadAndBranchRefs s).objects = s.objects := by
  unfold saveHeadAndBranchRefs saveHeadAndBranchRefsEv
  dsimp only
  split <;> rfl

lemma save_commits (s : GitState) :
    (saveHeadAndBranchRefs s).commits = s.commits := by
  unfold saveHeadAndBranchRefs saveHeadAndBranchRefsEv
  dsimp only
  split <;> rfl

lemma save_commitFiles (s : GitState) :
    (saveHeadAndBranchRefs s).commitFiles = s.commitFiles := by
  unfold saveHeadAndBranchRefs saveHeadAndBranchRefsEv
  dsimp only
  split <;> rfl

lemma save_headFile (s : GitState) :
    (saveHeadAndBranchRefs s).headFile =
      if s.headBranch ≠ "" then "ref: refs/heads/" ++ s.headBranch
      else s.headCommitHash := rfl

lemma save_refFiles_detached (s : GitState) (hb : s.headBranch = "") :
    (saveHeadAndBranchRefs s).refFiles = s.refFiles := by
  unfold saveHeadAndBranchRefs saveHeadAndBranchRefsEv
  dsimp only
  rw [if_neg (fun hc => hc.1 hb)]

lemma save_refFiles_noCommit (s : GitState) (hc : s.headCommitHash = "") :
    (saveHeadAndBranchRefs s).refFiles = s.refFiles := by
  unfold saveHeadAndBranchRefs saveHeadAndBranchRefsEv
  dsimp only
  rw [if_neg (fun hp => hp.2 hc)]

lemma save_refFiles_attached (s : GitState) (hb : s.headBranch ≠ "")
    (hc : s.headCommitHash ≠ "") :
    (saveHeadAndBranchRefs s).refFiles =
      insertA s.refFiles s.headBranch s.headCommitHash := by
  unfold saveHeadAndBranchRefs saveHeadAndBranchRefsEv
  dsimp only
  rw [if_pos ⟨hb, hc⟩]

/-! Characterization of the tree the commit engine builds. -/

lemma commitTreePre_lookup (s : GitState) (p : String)
    (hnd : (s.stagingArea.map Prod.fst).Nodup) :
    lookupS (commitTreePre s) p =
      if p ∈ (commitStaged s).deleted then none
      else Option.or (lookupS s.stagingArea p) (lookupS (headTreeOf s) p) := by
  unfold commitTreePre
  dsimp only
  rw [lookupS_foldl_eraseA, lookupS_foldl_insertA s.stagingArea p hnd]

/-- What a successful commit produces: the returned digest is the canonical
    digest of the constructed quadruple, and the commit cached under it is
    exactly the constructed record. -/
lemma commitOp_committed (s : GitState) (m ts hdg : String) (s2 : GitState)
    (hcm : commitOp s m ts = (s2, CommitResult.committed hdg)) :
    hdg = commitDigest m ts (commitParentsOf s) (commitTreePre s) ∧
    lookupS s2.commits hdg =
      some ⟨hdg, m, ts, commitParentsOf s, commitTreePre s⟩ := by
  unfold commitOp commitOpEv at hcm
  split at hcm
  · split at hcm
    · exact absurd (congrArg Prod.snd hcm) (fun hc => CommitResult.noConfusion hc)
    · dsimp only at hcm
      rw [Prod.mk.injEq] at hcm
      obtain ⟨hs, hr⟩ := hcm
      injection hr with hd
      subst hs
      subst hd
      refine ⟨rfl, ?_⟩
      dsimp only
      rw [saveEv_commits]
      split
      · exact lookupS_insertA_self _ _ _
      · exact lookupS_insertA_self _ _ _
  · exact absurd (congrArg Prod.snd hcm) (fun hc => CommitResult.noConfusion hc)

/-- C7: for every commit that commit(message) actually creates, the tree is
    HEAD's tree overridden by every (path, digest) entry of the index with
    every key classified as a staged deletion removed (stated per path: a
    staged-deleted path maps to nothing, otherwise the index entry wins over
    the head tree), and the parent list is the head digest when HEAD points at
    a commit and empty otherwise.  The staging area is assumed to have unique
    paths, as an unordered_map does. -/
theorem commit_snapshot_spec (s : GitState) (m ts hdg : String) (s2 : GitState)
    (hnd : (s.stagingArea.map Prod.fst).Nodup)
    (hcm : commitOp s m ts = (s2, CommitResult.committed hdg)) :
    ∃ c : Commit, lookupS s2.commits hdg = some c ∧
      c.message = m ∧ c.timestamp = ts ∧
      c.parentHashes = (if s.headCommitHash = "" then [] else [s.headCommitHash]) ∧
      ∀ p : String, lookupS c.fileBlobs p =
        if p ∈ (commitStaged s).deleted then none
        else Option.or (lookupS s.stagingArea p) (lookupS (headTreeOf s) p) := by
  obtain ⟨-, hl⟩ := commitOp_committed s m ts hdg s2 hcm
  exact ⟨_, hl, rfl, rfl, rfl, fun p => commitTreePre_lookup s p hnd⟩

/-- A head commit whose tree tracks old.txt and gone.txt; gone.txt is absent
    from both the staging area and the working directory, so it is a staged
    deletion at commit time. -/
def snapHead : Commit :=
  ⟨"h9999", "base", "t0", [], [("old.txt", "b1"), ("gone.txt", "b2")]⟩

/-- A repository at snapHead with a.txt staged and gone.txt deleted. -/
def snapState : GitState :=
  ⟨[("h9999", snapHead)], [("master", "h9999")], [("a.txt", "beef")], "master",
   "h9999", true, true, true, true, [("beef", "A"), ("b1", "OLD"), ("b2", "G")],
   [("h9999", snapHead)], [("master", "h9999")], "ref: refs/heads/master",
   [("a.txt", "A"), ("old.txt", "OLD")]⟩

/-- The digest of the commit created from snapState. -/
def snapDigest : String :=
  commitDigest "m" "t" (commitParentsOf snapState) (commitTreePre snapState)

/-- C7 witness: committing on the concrete repository snapState creates a
    commit whose parent is h9999 and whose tree is head tree plus the staged
    a.txt minus the staged-deleted gone.txt. -/
theorem commit_snapshot_spec_witness :
    ∃ c : Commit,
      lookupS (commitOp snapState "m" "t").1.commits snapDigest = some c ∧
      c.message = "m" ∧ c.timestamp = "t" ∧
      c.parentHashes =
        (if snapState.headCommitHash = "" then [] else [snapState.headCommitHash]) ∧
      ∀ p : String, lookupS c.fileBlobs p =
        if p ∈ (commitStaged snapState).deleted then none
        else Option.or (lookupS snapState.stagingArea p)
               (lookupS (headTreeOf snapState) p) :=
  commit_snapshot_spec snapState "m" "t" snapDigest (commitOp snapState "m" "t").1
    (by decide) (by decide)

/-- C9: the commit digest is a deterministic function of the quadruple
    (message, timestamp, ordered parent digests, tree): two commit
    invocations, on arbitrarily different repository states or in different
    runs, that construct equal quadruples return equal digests. -/
theorem commit_digest_deterministic (s1 s2 : GitState)
    (m1 ts1 m2 ts2 h1 h2 : String)
    (e1 : commitOp s1 m1 ts1 = ((commitOp s1 m1 ts1).1, CommitResult.committed h1))
    (e2 : commitOp s2 m2 ts2 = ((commitOp s2 m2 ts2).1, CommitResult.committed h2))
    (hm : m1 = m2) (ht : ts1 = ts2)
    (hp : commitParentsOf s1 = commitParentsOf s2)
    (htr : commitTreePre s1 = commitTreePre s2) :
    h1 = h2 := by
  obtain ⟨hd1, -⟩ := commitOp_committed s1 m1 ts1 h1 (commitOp s1 m1 ts1).1 e1
  obtain ⟨hd2, -⟩ := commitOp_committed s2 m2 ts2 h2 (commitOp s2 m2 ts2).1 e2
  rw [hd1, hd2, hm, ht, hp, htr]

/-- A repository about to make a root commit of a.txt, on branch master. -/
def detState1 : GitState :=
  ⟨[], [("master", "")], [("a.txt", "beef")], "master", "", true, true, true,
   true, [("beef", "A")], [], [], "ref: refs/heads/master", [("a.txt", "A")]⟩

/-- A different repository (detached HEAD, extra branch, extra working file)
    about to construct the identical commit quadruple. -/
def detState2 : GitState :=
  ⟨[], [("master", ""), ("dev", "zzz")], [("a.txt", "beef")], "", "", true,
   true, true, true, [("beef", "A")], [], [], "",
   [("a.txt", "A"), ("junk.txt", "J")]⟩

def detDigest1 : String :=
  commitDigest "m" "t" (commitParentsOf detState1) (commitTreePre detState1)

def detDigest2 : String :=
  commitDigest "m" "t" (commitParentsOf detState2) (commitTreePre detState2)

/-- C9 witness: the two concrete runs on detState1 and detState2 build the
    same quadruple and the theorem gives equal digests. -/
theorem commit_digest_deterministic_witness : detDigest1 = detDigest2 :=
  commit_digest_deterministic detState1 detState2 "m" "t" "m" "t"
    detDigest1 detDigest2 (by decide) (by decide) rfl rfl (by decide) (by decide)

/-- C10: when branch(name) succeeds on a consistent state (the on-disk ref
    file of the current branch already holds the current commit digest, and
    the HEAD file already holds the line matching the HEAD mode), the only
    state change is the addition of the binding name to the current commit
    digest in the branch map: the HEAD fields, the index, the working
    directory, the object store, the commit cache and store, the ref files,
    the HEAD file, and every other branch binding are unchanged. -/
theorem branch_only_adds_binding (s s2 : GitState) (name : String)
    (href : s.headBranch ≠ "" →
      lookupS s.refFiles s.headBranch = some s.headCommitHash ∧
      s.headFile = "ref: refs/heads/" ++ s.headBranch)
    (hdet : s.headBranch = "" → s.headFile = s.headCommitHash)
    (h : branchOp s name = (s2, BranchResult.created)) :
    s2.headBranch = s.headBranch ∧ s2.headCommitHash = s.headCommitHash ∧
    s2.stagingArea = s.stagingArea ∧ s2.workingDir = s.workingDir ∧
    s2.objects = s.objects ∧ s2.commits = s.commits ∧
    s2.commitFiles = s.commitFiles ∧ s2.refFiles = s.refFiles ∧
    s2.headFile = s.headFile ∧
    lookupS s2.branches name = some s.headCommitHash ∧
    (∀ b, b ≠ name → lookupS s2.branches b = lookupS s.branches b) := by
  unfold branchOp at h
  split at h
  · exact absurd (congrArg Prod.snd h) (fun hc => BranchResult.noConfusion hc)
  · split at h
    · exact absurd (congrArg Prod.snd h) (fun hc => BranchResult.noConfusion hc)
    · split at h
      · exact absurd (congrArg Prod.snd h) (fun hc => BranchResult.noConfusion hc)
      · rename_i hrepo hnc hex
        rw [Prod.mk.injEq] at h
        obtain ⟨hs, -⟩ := h
        subst hs
        refine ⟨save_headBranch _, save_headCommitHash _, save_stagingArea _,
          save_workingDir _, save_objects _, save_commits _, save_commitFiles _,
          ?_, ?_, ?_, ?_⟩
        · by_cases hb : s.headBranch = ""
          · exact save_refFiles_detached _ hb
          · have h1 := save_refFiles_attached
              { s with branches := insertA s.branches name s.headCommitHash } hb hnc
            exact h1.trans (insertA_id _ _ _ (href hb).1)
        · rw [save_headFile]
          dsimp only
          by_cases hb : s.headBranch = ""
          · rw [if_neg (fun hx => hx hb)]
            exact (hdet hb).symm
          · rw [if_pos hb]
            exact (href hb).2.symm
        · rw [save_branches]
          exact lookupS_insertA_self _ _ _
        · intro b hbn
          rw [save_branches]
          exact lookupS_insertA_ne _ _ _ _ (fun he => hbn he.symm)

/-- A consistent repository used to exercise the branch frame property. -/
def frameState : GitState :=
  ⟨[("h2222", ⟨"h2222", "fst", "t0", [], []⟩)], [("master", "h2222")], [],
   "master", "h2222", true, true, true, true, [],
   [("h2222", ⟨"h2222", "fst", "t0", [], []⟩)], [("master", "h2222")],
   "ref: refs/heads/master", []⟩

/-- C10 witness: creating branch topic on the concrete repository frameState
    changes only the branch map, adding topic bound to h2222. -/
theorem branch_only_adds_binding_witness :
    (branchOp frameState "topic").1.headBranch = frameState.headBranch ∧
    (branchOp frameState "topic").1.headCommitHash = frameState.headCommitHash ∧
    (branchOp frameState "topic").1.stagingArea = frameState.stagingArea ∧
    (branchOp frameState "topic").1.workingDir = frameState.workingDir ∧
    (branchOp frameState "topic").1.objects = frameState.objects ∧
    (branchOp frameState "topic").1.commits = frameState.commits ∧
    (branchOp frameState "topic").1.commitFiles = frameState.commitFiles ∧
    (branchOp frameState "topic").1.refFiles = frameState.refFiles ∧
    (branchOp frameState "topic").1.headFile = frameState.headFile ∧
    lookupS (branchOp frameState "topic").1.branches "topic" =
      some frameState.headCommitHash ∧
    (∀ b, b ≠ "topic" →
      lookupS (branchOp frameState "topic").1.branches b =
        lookupS frameState.branches b) :=
  branch_only_adds_binding frameState (branchOp frameState "topic").1 "topic"
    (fun _ => ⟨by decide, by decide⟩) (fun hb => absurd hb (by decide)) (by decide)

/-- Two commits whose digests share the four-character prefix abcd. -/
def ambigA : Commit := ⟨"abcd1", "m1", "t1", [], []⟩

def ambigB : Commit := ⟨"abcd2", "m2", "t2", ["abcd1"], []⟩

/-- A clean repository knowing both ambiguous commits, HEAD at abcd2. -/
def ambigState : GitState :=
  ⟨[("abcd1", ambigA), ("abcd2", ambigB)], [("master", "abcd2")], [], "master",
   "abcd2", true, true, true, true, [], [("abcd1", ambigA), ("abcd2", ambigB)],
   [("master", "abcd2")], "ref: refs/heads/master", []⟩

/-- C4 counterexample: the claim fails on the code: the target abcd is
    neither a branch nor an exact digest and is a prefix of the two known
    digests abcd1 and abcd2, yet checkout does not fail with UnknownTarget;
    it resolves to the first match in map iteration order and switches to
    abcd1 in detached mode. -/
theorem checkout_ambiguous_target_resolves :
    strStartsWith "abcd1" "abcd" = true ∧
    strStartsWith "abcd2" "abcd" = true ∧
    ("abcd1" : String) ≠ "abcd2" ∧
    (lookupS ambigState.branches "abcd").isNone = true ∧
    (lookupS ambigState.commits "abcd").isNone = true ∧
    (checkoutOp ambigState "abcd").2 = CheckoutResult.checkedOut ∧
    (checkoutOp ambigState "abcd").1.headCommitHash = "abcd1" ∧
    (checkoutOp ambigState "abcd").1.headBranch = "" := by decide

/-- C4 amended: for a target that is not a known branch name and not an exact
    known commit digest, the checkout resolution succeeds precisely when the
    target has length at least four and is a prefix of at least one known
    commit digest, and it settles on the first matching digest in the commit
    map's iteration order (two or more matches do not cause a failure);
    when the resolution is empty, checkout fails with UnknownTarget and
    changes nothing.  The hypothesis hself says the head commit is already
    cached, so the known digests are exactly the commit map's keys. -/
theorem checkout_target_resolution (s : GitState) (target : String)
    (hself : ensureLoaded s s.headCommitHash = s)
    (hb : (lookupS s.branches target).isNone = true)
    (hc : (lookupS s.commits target).isNone = true) :
    (resolveCommit s target ≠ "" ↔
      4 ≤ target.length ∧ ∃ e ∈ s.commits, strStartsWith e.1 target = true) ∧
    (∀ e, s.commits.find? (resolvePred target) = some e →
      resolveCommit s target = e.1) ∧
    (∀ s2, checkoutOp s target = (s2, CheckoutResult.unknownTarget) → s2 = s) := by
  have hcn : lookupS s.commits target = none := Option.isNone_iff_eq_none.mp hc
  have hbn : lookupS s.branches target = none := Option.isNone_iff_eq_none.mp hb
  have hres : resolveCommit s target =
      match s.commits.find? (resolvePred target) with
      | some e => e.1
      | none => "" := by
    unfold resolveCommit
    rw [hcn]
    rfl
  refine ⟨?_, ?_, ?_⟩
  · rw [hres]
    cases hf : s.commits.find? (resolvePred target) with
    | none =>
      dsimp only
      constructor
      · intro hne
        exact absurd rfl hne
      · rintro ⟨hlen, e, hmem, hsw⟩
        rw [List.find?_eq_none] at hf
        have hpe := hf e hmem
        unfold resolvePred at hpe
        rw [hsw, decide_eq_true hlen] at hpe
        exact fun _ => hpe rfl
    | some e =>
      dsimp only
      have hpe : resolvePred target e = true := List.find?_some hf
      unfold resolvePred at hpe
      rw [Bool.and_eq_true] at hpe
      have hlen : 4 ≤ target.length := of_decide_eq_true hpe.2
      have hmem : e ∈ s.commits := List.mem_of_find?_eq_some hf
      constructor
      · intro _
        exact ⟨hlen, e, hmem, hpe.1⟩
      · intro _ he0
        have hpre : target.data <+: e.1.data := by
          have hsw := hpe.1
          unfold strStartsWith at hsw
          exact List.isPrefixOf_iff_prefix.mp hsw
        have hle : target.data.length ≤ e.1.data.length := hpre.length_le
        have h4 : 4 ≤ target.data.length := hlen
        have hnil : ("" : String).data = [] := rfl
        rw [he0, hnil] at hle
        simp at hle
        omega
  · intro e hf
    rw [hres, hf]
  · intro s2 h
    unfold checkoutOp at h
    split at h
    · rw [hself] at h
      unfold checkoutLoaded at h
      split at h
      · exact absurd (congrArg Prod.snd h) (fun hx => CheckoutResult.noConfusion hx)
      · unfold checkoutResolve at h
        rw [hbn] at h
        dsimp only at h
        unfold checkoutGo checkoutSwitch at h
        dsimp only at h
        repeat' split at h
        all_goals first
          | (rw [Prod.mk.injEq] at h; exact h.1.symm)
          | exact absurd (congrArg Prod.snd h) (fun hx => CheckoutResult.noConfusion hx)
    · exact absurd (congrArg Prod.snd h) (fun hx => CheckoutResult.noConfusion hx)

/-- A warm-cache repository with a single commit h3333, used against the
    unresolvable target zzzz. -/
def warmState : GitState :=
  ⟨[("h3333", ⟨"h3333", "w", "t0", [], []⟩)], [("master", "h3333")], [],
   "master", "h3333", true, true, true, true, [],
   [("h3333", ⟨"h3333", "w", "t0", [], []⟩)], [("master", "h3333")],
   "ref: refs/heads/master", []⟩

/-- C4 witness: on the concrete repository warmState with target zzzz (no
    branch, no digest, no prefix match) the resolution is empty and the
    UnknownTarget failure changes nothing. -/
theorem checkout_target_resolution_witness :
    (resolveCommit warmState "zzzz" ≠ "" ↔
      4 ≤ ("zzzz" : String).length ∧
      ∃ e ∈ warmState.commits, strStartsWith e.1 "zzzz" = true) ∧
    (∀ e, warmState.commits.find? (resolvePred "zzzz") = some e →
      resolveCommit warmState "zzzz" = e.1) ∧
    (∀ s2, checkoutOp warmState "zzzz" = (s2, CheckoutResult.unknownTarget) →
      s2 = warmState) :=
  checkout_target_resolution warmState "zzzz" (by decide) (by decide) (by decide)

end MiniGit
